import Mathlib

/-!
Verification development for the mirrord in-process interception layer.

The definitions below are a shallow embedding of the Rust sources under
`src/mirrord/`:

* `src/mirrord/layer/src/file/ops.rs` — file virtualization (`open`, `openat`,
  `read`/`pread`, `statx_logic`, `absolute_path`, the `OPEN_FILES` table);
* `src/mirrord/layer/src/socket/hooks.rs` — socket/DNS hooks
  (`gethostname_detour`, `getaddrinfo_detour`, `freeaddrinfo_detour`,
  the `MANAGED_ADDRINFO` registry);
* `src/mirrord/kube/src/api.rs` — the relay task (`wrap_raw_connection`).

Effectful Rust code is embedded as pure functions over an explicit state
(the virtualization tables and the list of protocol requests sent so far),
with the replies of the remote peer and the results of native libc calls
passed in as oracle parameters.
-/

namespace Mirrord

/-- Bypass reasons of the layer's tri-state outcome type, as raised by the code
under `src/mirrord/layer/src/file/ops.rs` (the `Bypass` enum itself lives in
`detour.rs`, outside the sources; only the variants raised here are modelled). -/
inductive Bypass where
  | ignoredFile (path : String)
  | relativePath (path : String)
  | localFdNotFound (fd : Int)
  | emptyBuffer
  | notImplemented
  | cStrConversion
deriving DecidableEq, Repr

/-- Remote-reported failure carried inside a response
(`mirrord_protocol::ResponseError`; abstracted, only `NotImplemented` is
distinguished by the embedded code). -/
inductive ResponseError where
  | notImplemented
  | remoteFailure (code : Nat)
deriving DecidableEq, Repr

/-- Hook errors raised by the embedded fragment of `file/ops.rs`. -/
inductive HookError where
  | localFileCreation (remoteFd : Nat)
  | responseFailure (e : ResponseError)
deriving DecidableEq, Repr

/-- The tri-state outcome wrapping every virtualized operation
(`Detour` in `detour.rs`): continue with a value, fall back to the native
call, or fail with an error. -/
inductive Detour (α : Type) where
  | success (v : α)
  | bypass (b : Bypass)
  | error (e : HookError)
deriving DecidableEq, Repr

/-- Open options carried in an open request
(`mirrord_protocol::file::OpenOptionsInternal`, outside the sources); the layer
code only inspects the write/read intent via `is_write()`. -/
structure OpenOptionsInternal where
  isWrite : Bool
deriving DecidableEq, Repr

/-- The protocol requests issued by the embedded file operations, in the order
they are handed to the proxy bridge. -/
inductive FileRequest where
  | openFile (path : String) (openOptions : OpenOptionsInternal)
  | openRelativeFile (relativeFd : Nat) (path : String)
      (openOptions : OpenOptionsInternal)
  | readFile (remoteFd : Nat) (bufferSize : Nat)
  | readLimitedFile (remoteFd : Nat) (bufferSize : Nat) (startFrom : Nat)
  | closeFile (fd : Nat)
deriving DecidableEq, Repr

/-- Recognizes a compensating close request. -/
def isCloseRequest : FileRequest → Bool
  | FileRequest.closeFile _ => true
  | _ => false

/-- A managed file entry of `OPEN_FILES`: the remote handle paired with its
originating path (`RemoteFile` in `file/ops.rs`). -/
structure RemoteFile where
  fd : Nat
  path : String
deriving DecidableEq, Repr

/-- The mutable state touched by the embedded file operations: the
local-to-remote table `OPEN_FILES`, the requests sent to the proxy so far, and
counters for the two policy-oracle consultations (`file_remapper` and
`file_filter`). -/
structure LayerState where
  openFiles : List (Int × RemoteFile)
  sentRequests : List FileRequest
  remapCalls : Nat
  filterCalls : Nat
deriving DecidableEq, Repr

/-- The externally configured policy oracle (`crate::setup()`): the path
remapper `file_remapper().change_path` and the redirect/bypass filter
`file_filter().continue_or_bypass_with` (true means continue virtualizing). -/
structure Setup where
  changePath : String → String
  fileFilterAllows : String → Bool → Bool

/-- `Path::is_absolute` for Unix paths: the path has a root, i.e. starts
with '/'. -/
def is_absolute (s : String) : Bool := s.data.head? == some '/'

/-- `Path::is_relative`: negation of `is_absolute`. -/
def is_relative (s : String) : Bool := !is_absolute s

/-- `HashMap::insert` on the `OPEN_FILES` table: the new binding replaces any
previous binding of the same local descriptor. -/
def tableInsert (fd : Int) (rf : RemoteFile) (t : List (Int × RemoteFile)) :
    List (Int × RemoteFile) :=
  (fd, rf) :: t.filter (fun p => !(p.1 == fd))

/-- `HashMap::remove` on the `OPEN_FILES` table. -/
def tableErase (fd : Int) (t : List (Int × RemoteFile)) :
    List (Int × RemoteFile) :=
  t.filter (fun p => !(p.1 == fd))

/-- Embeds `get_remote_fd` (file/ops.rs:130): looks the local descriptor up in
`OPEN_FILES`, bypassing when it is not tracked. -/
def get_remote_fd (localFd : Int) (s : LayerState) : Detour Nat :=
  match s.openFiles.lookup localFd with
  | some rf => Detour.success rf.fd
  | none => Detour.bypass (Bypass.localFdNotFound localFd)

/-- Embeds `create_local_fake_file` (file/ops.rs:144). `localOpenResult` is the
descriptor the native `FN_OPEN` call on the freshly named temporary path
returned (-1 on failure); the temporary path itself is immediately unlinked and
has no further observable effect. On failure, `close_remote_file_on_failure`
issues a compensating `CloseFileRequest` for the remote descriptor before the
error is returned. -/
def create_local_fake_file (remoteFd : Nat) (localOpenResult : Int)
    (s : LayerState) : Detour Int × LayerState :=
  if localOpenResult == -1 then
    (Detour.error (HookError.localFileCreation remoteFd),
      { s with sentRequests :=
          s.sentRequests ++ [FileRequest.closeFile remoteFd] })
  else
    (Detour.success localOpenResult, s)

/-- Embeds `RemoteFile::remote_open` (file/ops.rs:77): sends an
`OpenFileRequest` and waits for the correlated reply, which is passed in as the
oracle parameter `remoteResult` (transport failure is outside the modelled
fragment). -/
def remote_open (path : String) (oo : OpenOptionsInternal)
    (remoteResult : Except ResponseError Nat) (s : LayerState) :
    Detour Nat × LayerState :=
  let s := { s with sentRequests :=
      s.sentRequests ++ [FileRequest.openFile path oo] }
  match remoteResult with
  | Except.ok fd => (Detour.success fd, s)
  | Except.error e => (Detour.error (HookError.responseFailure e), s)

/-- Embeds `open` (file/ops.rs:180): reject relative paths, remap the path,
consult the filter, open remotely, allocate the local placeholder descriptor,
and register the association in `OPEN_FILES`.  (`open` is a Lean keyword, hence
the name `openLogic`.) -/
def openLogic (setup : Setup) (remoteResult : Except ResponseError Nat)
    (localOpenResult : Int) (path : String) (oo : OpenOptionsInternal)
    (s : LayerState) : Detour Int × LayerState :=
  if is_relative path then
    (Detour.bypass (Bypass.relativePath path), s)
  else
    let path := setup.changePath path
    let s := { s with remapCalls := s.remapCalls + 1 }
    let s := { s with filterCalls := s.filterCalls + 1 }
    if !setup.fileFilterAllows path oo.isWrite then
      (Detour.bypass (Bypass.ignoredFile path), s)
    else
      match remote_open path oo remoteResult s with
      | (Detour.success remoteFd, s) =>
        (match create_local_fake_file remoteFd localOpenResult s with
         | (Detour.success localFd, s) =>
           (Detour.success localFd,
             { s with openFiles :=
                 tableInsert localFd ⟨remoteFd, path⟩ s.openFiles })
         | (Detour.bypass b, s) => (Detour.bypass b, s)
         | (Detour.error e, s) => (Detour.error e, s))
      | (Detour.bypass b, s) => (Detour.bypass b, s)
      | (Detour.error e, s) => (Detour.error e, s)

/-- The `AT_FDCWD` sentinel (-100 on Linux). -/
def AT_FDCWD : Int := -100

/-- Embeds `openat` (file/ops.rs:231): an absolute path or the `AT_FDCWD`
sentinel defers to `open` (after remapping the path); a relative path resolves
the base descriptor through `get_remote_fd` and issues an
`OpenRelativeFileRequest`, then allocates and registers the placeholder
descriptor exactly as `open` does. -/
def openat (setup : Setup) (remoteResult : Except ResponseError Nat)
    (localOpenResult : Int) (fd : Int) (path : String)
    (oo : OpenOptionsInternal) (s : LayerState) : Detour Int × LayerState :=
  if is_absolute path || fd == AT_FDCWD then
    let path := setup.changePath path
    let s := { s with remapCalls := s.remapCalls + 1 }
    openLogic setup remoteResult localOpenResult path oo s
  else
    match get_remote_fd fd s with
    | Detour.success remoteDirFd =>
      let s := { s with sentRequests :=
          s.sentRequests ++ [FileRequest.openRelativeFile remoteDirFd path oo] }
      (match remoteResult with
       | Except.ok remoteFd =>
         (match create_local_fake_file remoteFd localOpenResult s with
          | (Detour.success localFd, s) =>
            (Detour.success localFd,
              { s with openFiles :=
                  tableInsert localFd ⟨remoteFd, path⟩ s.openFiles })
          | (Detour.bypass b, s) => (Detour.bypass b, s)
          | (Detour.error e, s) => (Detour.error e, s))
       | Except.error e => (Detour.error (HookError.responseFailure e), s))
    | Detour.bypass b => (Detour.bypass b, s)
    | Detour.error e => (Detour.error e, s)

/-- C1: when the remote open succeeds (with remote descriptor `remoteFd`) but
the local placeholder allocation fails (`FN_OPEN` returns -1), `open` issues
exactly one compensating remote-close request, returns an error outcome, and
leaves no entry in the local-to-remote table. -/
theorem open_rollback (setup : Setup) (remoteFd : Nat) (path : String)
    (oo : OpenOptionsInternal) (s : LayerState)
    (habs : is_relative path = false)
    (hfilter : setup.fileFilterAllows (setup.changePath path) oo.isWrite
      = true) :
    openLogic setup (Except.ok remoteFd) (-1) path oo s =
      (Detour.error (HookError.localFileCreation remoteFd),
        { s with
          sentRequests := s.sentRequests ++
            [FileRequest.openFile (setup.changePath path) oo,
             FileRequest.closeFile remoteFd],
          remapCalls := s.remapCalls + 1,
          filterCalls := s.filterCalls + 1 }) ∧
    ((openLogic setup (Except.ok remoteFd) (-1) path oo s).2.sentRequests.drop
        s.sentRequests.length).countP isCloseRequest = 1 ∧
    (openLogic setup (Except.ok remoteFd) (-1) path oo s).2.openFiles
      = s.openFiles := by
  have h : openLogic setup (Except.ok remoteFd) (-1) path oo s =
      (Detour.error (HookError.localFileCreation remoteFd),
        { s with
          sentRequests := s.sentRequests ++
            [FileRequest.openFile (setup.changePath path) oo,
             FileRequest.closeFile remoteFd],
          remapCalls := s.remapCalls + 1,
          filterCalls := s.filterCalls + 1 }) := by
    simp [openLogic, remote_open, create_local_fake_file, habs, hfilter]
  refine ⟨h, ?_, ?_⟩
  · rw [h]
    simp [List.drop_left, isCloseRequest]
  · rw [h]

/-- Closed instance of `open_rollback` at a concrete input. -/
theorem open_rollback_witness :
    openLogic ⟨fun p => p, fun _ _ => true⟩ (Except.ok 7) (-1) "/a" ⟨false⟩
        ⟨[], [], 0, 0⟩ =
      (Detour.error (HookError.localFileCreation 7),
        { (⟨[], [], 0, 0⟩ : LayerState) with
          sentRequests := [] ++
            [FileRequest.openFile "/a" ⟨false⟩, FileRequest.closeFile 7],
          remapCalls := 0 + 1,
          filterCalls := 0 + 1 }) ∧
    ((openLogic ⟨fun p => p, fun _ _ => true⟩ (Except.ok 7) (-1) "/a" ⟨false⟩
        ⟨[], [], 0, 0⟩).2.sentRequests.drop
        ([] : List FileRequest).length).countP isCloseRequest = 1 ∧
    (openLogic ⟨fun p => p, fun _ _ => true⟩ (Except.ok 7) (-1) "/a" ⟨false⟩
        ⟨[], [], 0, 0⟩).2.openFiles = [] :=
  open_rollback ⟨fun p => p, fun _ _ => true⟩ 7 "/a" ⟨false⟩ ⟨[], [], 0, 0⟩
    (by decide) rfl

/-- C7: `openat` dispatch — an absolute path or the `AT_FDCWD` sentinel defers
to `open` (on the remapped path); a relative path with a tracked base
descriptor issues a relative-open request carrying the base's remote handle;
a relative path with an untracked base descriptor bypasses. -/
theorem openat_dispatch (setup : Setup) (r : Except ResponseError Nat)
    (lfd : Int) (fd : Int) (path : String) (oo : OpenOptionsInternal)
    (s : LayerState) :
    ((is_absolute path || fd == AT_FDCWD) = true →
      openat setup r lfd fd path oo s =
        openLogic setup r lfd (setup.changePath path) oo
          { s with remapCalls := s.remapCalls + 1 }) ∧
    ((is_absolute path || fd == AT_FDCWD) = false →
      get_remote_fd fd s = Detour.bypass (Bypass.localFdNotFound fd) →
      openat setup r lfd fd path oo s =
        (Detour.bypass (Bypass.localFdNotFound fd), s)) ∧
    (∀ remoteDirFd : Nat, (is_absolute path || fd == AT_FDCWD) = false →
      get_remote_fd fd s = Detour.success remoteDirFd →
      ∃ rest : List FileRequest,
        (openat setup r lfd fd path oo s).2.sentRequests =
          (s.sentRequests ++
            [FileRequest.openRelativeFile remoteDirFd path oo]) ++ rest) := by
  refine ⟨?_, ?_, ?_⟩
  · intro h
    simp [openat, h]
  · intro h hfd
    simp [openat, h, hfd]
  · intro remoteDirFd h hfd
    cases r with
    | ok remoteFd =>
      by_cases hl : lfd == -1
      · refine ⟨[FileRequest.closeFile remoteFd], ?_⟩
        simp [openat, h, hfd, create_local_fake_file, hl]
      · refine ⟨[], ?_⟩
        simp [openat, h, hfd, create_local_fake_file, hl]
    | error e =>
      refine ⟨[], ?_⟩
      simp [openat, h, hfd]

/-- Closed instances of the three `openat_dispatch` cases: an absolute path
defers to `open`; a relative path with untracked base 3 bypasses; a relative
path with base 3 tracked as remote 9 issues a relative-open request first. -/
theorem openat_dispatch_witness :
    openat ⟨fun p => p, fun _ _ => true⟩ (Except.ok 7) 5 3 "/a" ⟨false⟩
        ⟨[], [], 0, 0⟩ =
      openLogic ⟨fun p => p, fun _ _ => true⟩ (Except.ok 7) 5 "/a" ⟨false⟩
        { (⟨[], [], 0, 0⟩ : LayerState) with remapCalls := 0 + 1 } ∧
    openat ⟨fun p => p, fun _ _ => true⟩ (Except.ok 7) 5 3 "b" ⟨false⟩
        ⟨[], [], 0, 0⟩ =
      (Detour.bypass (Bypass.localFdNotFound 3), ⟨[], [], 0, 0⟩) ∧
    (∃ rest : List FileRequest,
      (openat ⟨fun p => p, fun _ _ => true⟩ (Except.ok 7) 5 3 "b" ⟨false⟩
          ⟨[(3, ⟨9, "/d"⟩)], [], 0, 0⟩).2.sentRequests =
        ([] ++ [FileRequest.openRelativeFile 9 "b" ⟨false⟩]) ++ rest) :=
  ⟨(openat_dispatch ⟨fun p => p, fun _ _ => true⟩ (Except.ok 7) 5 3 "/a"
      ⟨false⟩ ⟨[], [], 0, 0⟩).1 (by decide),
   (openat_dispatch ⟨fun p => p, fun _ _ => true⟩ (Except.ok 7) 5 3 "b"
      ⟨false⟩ ⟨[], [], 0, 0⟩).2.1 (by decide) (by decide),
   (openat_dispatch ⟨fun p => p, fun _ _ => true⟩ (Except.ok 7) 5 3 "b"
      ⟨false⟩ ⟨[(3, ⟨9, "/d"⟩)], [], 0, 0⟩).2.2 9 (by decide) (by decide)⟩

/-- C9 counterexample: an `openat` call that defers to `open` consults the path
remapper twice, not once — with the remapper that appends "!", the caller's
path "/a" reaches the open request as "/a!!", and the remap counter reads 2. -/
theorem openat_remap_twice_counterexample :
    (openat ⟨fun p => p ++ "!", fun _ _ => true⟩ (Except.ok 3) 5 AT_FDCWD "/a"
        ⟨false⟩ ⟨[], [], 0, 0⟩).2.remapCalls = 2 ∧
    (openat ⟨fun p => p ++ "!", fun _ _ => true⟩ (Except.ok 3) 5 AT_FDCWD "/a"
        ⟨false⟩ ⟨[], [], 0, 0⟩).2.sentRequests =
      [FileRequest.openFile "/a!!" ⟨false⟩] ∧
    (2 : Nat) ≠ 1 := by
  refine ⟨?_, ?_, by decide⟩ <;>
    simp [openat, openLogic, remote_open, create_local_fake_file, is_relative,
      is_absolute, AT_FDCWD]

/-- C9 as amended: per top-level operation the redirect/bypass filter is
consulted exactly once, but an `openat` that defers to `open` applies the path
remapper twice — once in `openat` and once more inside `open` — so the open
request carries the remapper applied twice to the caller's path; a plain `open`
applies remapper and filter exactly once each. -/
theorem openat_policy_consultations (setup : Setup)
    (r : Except ResponseError Nat) (lfd : Int) (fd : Int) (path : String)
    (oo : OpenOptionsInternal) (s : LayerState)
    (hdefer : (is_absolute path || fd == AT_FDCWD) = true)
    (habs2 : is_relative (setup.changePath path) = false) :
    (openat setup r lfd fd path oo s).2.remapCalls = s.remapCalls + 2 ∧
    (openat setup r lfd fd path oo s).2.filterCalls = s.filterCalls + 1 ∧
    (openat setup r lfd fd path oo s).2.sentRequests.take
        (s.sentRequests.length + 1) =
      (if setup.fileFilterAllows (setup.changePath (setup.changePath path))
          oo.isWrite then
        s.sentRequests ++
          [FileRequest.openFile (setup.changePath (setup.changePath path)) oo]
      else s.sentRequests.take (s.sentRequests.length + 1)) ∧
    (openLogic setup r lfd path oo s).2.remapCalls
      = (if is_relative path then s.remapCalls else s.remapCalls + 1) ∧
    (openLogic setup r lfd path oo s).2.filterCalls
      = (if is_relative path then s.filterCalls else s.filterCalls + 1) := by
  have key : ∀ t : LayerState,
      ((openLogic setup r lfd (setup.changePath path) oo t).2.remapCalls
          = t.remapCalls + 1 ∧
        (openLogic setup r lfd (setup.changePath path) oo t).2.filterCalls
          = t.filterCalls + 1) ∧
      (setup.fileFilterAllows (setup.changePath (setup.changePath path))
            oo.isWrite = true →
        (openLogic setup r lfd (setup.changePath path) oo t).2.sentRequests.take
            (t.sentRequests.length + 1) =
          t.sentRequests ++
            [FileRequest.openFile (setup.changePath (setup.changePath path))
              oo]) := by
    intro t
    refine ⟨?_, ?_⟩
    · by_cases hf : setup.fileFilterAllows (setup.changePath
          (setup.changePath path)) oo.isWrite
      all_goals cases r with
      | ok remoteFd =>
        by_cases hl : lfd == -1 <;>
          simp [openLogic, remote_open, create_local_fake_file, habs2, hf, hl]
      | error e =>
        simp [openLogic, remote_open, create_local_fake_file, habs2, hf]
    · intro hf
      have htake : ∀ l₂ : List FileRequest,
          ((t.sentRequests ++
              [FileRequest.openFile (setup.changePath (setup.changePath path))
                oo]) ++ l₂).take (t.sentRequests.length + 1) =
            t.sentRequests ++
              [FileRequest.openFile (setup.changePath (setup.changePath path))
                oo] := by
        intro l₂
        rw [List.take_append_of_le_length (by simp)]
        rw [List.take_of_length_le (by simp)]
      cases r with
      | ok remoteFd =>
        by_cases hl : lfd == -1
        · have := htake [FileRequest.closeFile remoteFd]
          simp only [openLogic, remote_open, create_local_fake_file, habs2, hf,
            hl] at *
          simpa using this
        · have := htake []
          simp only [openLogic, remote_open, create_local_fake_file, habs2, hf,
            hl] at *
          simp only [List.append_nil] at this
          exact this
      | error e =>
        have := htake []
        simp only [openLogic, remote_open, create_local_fake_file, habs2,
          hf] at *
        simp only [List.append_nil] at this
        exact this
  have hopenat : openat setup r lfd fd path oo s =
      openLogic setup r lfd (setup.changePath path) oo
        { s with remapCalls := s.remapCalls + 1 } := by
    simp [openat, hdefer]
  refine ⟨?_, ?_, ?_, ?_, ?_⟩
  · rw [hopenat]
    have h := ((key { s with remapCalls := s.remapCalls + 1 }).1).1
    simpa using h
  · rw [hopenat]
    have h := ((key { s with remapCalls := s.remapCalls + 1 }).1).2
    simpa using h
  · rw [hopenat]
    by_cases hf : setup.fileFilterAllows (setup.changePath
        (setup.changePath path)) oo.isWrite
    · have h := (key { s with remapCalls := s.remapCalls + 1 }).2 hf
      simpa [hf] using h
    · simp [openLogic, habs2, hf]
  · by_cases hrel : is_relative path
    · simp [openLogic, hrel]
    · have hrel' : is_relative path = false := by
        simpa using hrel
      by_cases hf : setup.fileFilterAllows (setup.changePath path) oo.isWrite
      all_goals cases r with
      | ok remoteFd =>
        by_cases hl : lfd == -1 <;>
          simp [openLogic, remote_open, create_local_fake_file, hrel, hrel',
            hf, hl]
      | error e =>
        simp [openLogic, remote_open, create_local_fake_file, hrel, hrel', hf]
  · by_cases hrel : is_relative path
    · simp [openLogic, hrel]
    · have hrel' : is_relative path = false := by
        simpa using hrel
      by_cases hf : setup.fileFilterAllows (setup.changePath path) oo.isWrite
      all_goals cases r with
      | ok remoteFd =>
        by_cases hl : lfd == -1 <;>
          simp [openLogic, remote_open, create_local_fake_file, hrel, hrel',
            hf, hl]
      | error e =>
        simp [openLogic, remote_open, create_local_fake_file, hrel, hrel', hf]

/-- Closed instance of `openat_policy_consultations` at a concrete input. -/
theorem openat_policy_consultations_witness :
    (openat ⟨fun p => p, fun _ _ => true⟩ (Except.ok 3) 5 AT_FDCWD "/a"
        ⟨false⟩ ⟨[], [], 0, 0⟩).2.remapCalls = 0 + 2 ∧
    (openat ⟨fun p => p, fun _ _ => true⟩ (Except.ok 3) 5 AT_FDCWD "/a"
        ⟨false⟩ ⟨[], [], 0, 0⟩).2.filterCalls = 0 + 1 ∧
    (openat ⟨fun p => p, fun _ _ => true⟩ (Except.ok 3) 5 AT_FDCWD "/a"
        ⟨false⟩ ⟨[], [], 0, 0⟩).2.sentRequests.take
        (([] : List FileRequest).length + 1) =
      (if (⟨fun p => p, fun _ _ => true⟩ : Setup).fileFilterAllows "/a" false
        then [] ++ [FileRequest.openFile "/a" ⟨false⟩]
        else ([] : List FileRequest).take
          (([] : List FileRequest).length + 1)) ∧
    (openLogic ⟨fun p => p, fun _ _ => true⟩ (Except.ok 3) 5 "/a" ⟨false⟩
        ⟨[], [], 0, 0⟩).2.remapCalls
      = (if is_relative "/a" then 0 else 0 + 1) ∧
    (openLogic ⟨fun p => p, fun _ _ => true⟩ (Except.ok 3) 5 "/a" ⟨false⟩
        ⟨[], [], 0, 0⟩).2.filterCalls
      = (if is_relative "/a" then 0 else 0 + 1) :=
  openat_policy_consultations ⟨fun p => p, fun _ _ => true⟩ (Except.ok 3) 5
    AT_FDCWD "/a" ⟨false⟩ ⟨[], [], 0, 0⟩ (by decide) (by decide)

/-- The evolutions of the `OPEN_FILES` table after a call returns, excluding a
close of the distinguished local descriptor `l`: further open/openat calls
insert a freshly allocated placeholder descriptor (the native open returns a
descriptor not currently in use, hence one not present in the table), and
close calls on other descriptors remove their entries. -/
inductive ReachWithoutClose (l : Int) :
    List (Int × RemoteFile) → List (Int × RemoteFile) → Prop where
  | refl (t) : ReachWithoutClose l t t
  | openStep {t₁ t₂} (l' : Int) (rf : RemoteFile)
      (h : ReachWithoutClose l t₁ t₂) (hfresh : t₂.lookup l' = none) :
      ReachWithoutClose l t₁ (tableInsert l' rf t₂)
  | closeStep {t₁ t₂} (l' : Int) (h : ReachWithoutClose l t₁ t₂)
      (hne : l' ≠ l) :
      ReachWithoutClose l t₁ (tableErase l' t₂)

/-- Looking up a key is unaffected by filtering out a different key. -/
theorem lookup_filter_ne (l l' : Int) (h : ¬ l = l') :
    ∀ t : List (Int × RemoteFile),
      (t.filter (fun p => !(p.1 == l'))).lookup l = t.lookup l
  | [] => rfl
  | (k, v) :: rest => by
    by_cases hk : k = l'
    · subst hk
      have hlk : (l == k) = false := by simp [h]
      simp [List.filter_cons, List.lookup, hlk,
        lookup_filter_ne l k h rest]
    · by_cases hlk : l = k
      · simp [List.filter_cons, hk, List.lookup, hlk]
      · simp [List.filter_cons, hk, List.lookup, hlk,
          lookup_filter_ne l l' h rest]

/-- Inserting under a different key does not change a lookup. -/
theorem lookup_tableInsert_ne (l l' : Int) (rf : RemoteFile)
    (t : List (Int × RemoteFile)) (h : ¬ l = l') :
    (tableInsert l' rf t).lookup l = t.lookup l := by
  have hll' : (l == l') = false := by simp [h]
  simp only [tableInsert, List.lookup, hll']
  exact lookup_filter_ne l l' h t

/-- Erasing a different key does not change a lookup. -/
theorem lookup_tableErase_ne (l l' : Int) (t : List (Int × RemoteFile))
    (h : ¬ l = l') :
    (tableErase l' t).lookup l = t.lookup l :=
  lookup_filter_ne l l' h t

/-- A binding present in the table survives every evolution that does not
close its local descriptor. -/
theorem reach_preserves_lookup (l : Int) (rf : RemoteFile)
    {t₁ t₂ : List (Int × RemoteFile)} (hreach : ReachWithoutClose l t₁ t₂)
    (h1 : t₁.lookup l = some rf) : t₂.lookup l = some rf := by
  induction hreach with
  | refl => exact h1
  | openStep l' rf' h hfresh ih =>
    have hne : ¬ l = l' := by
      intro he
      rw [← he, ih] at hfresh
      cases hfresh
    rw [lookup_tableInsert_ne l l' rf' _ hne]
    exact ih
  | closeStep l' h hne ih =>
    rw [lookup_tableErase_ne l l' _ (fun he => hne he.symm)]
    exact ih

/-- A freshly inserted binding is visible and survives every evolution that
does not close its local descriptor. -/
theorem inserted_binding_persists (localFd : Int) (rf : RemoteFile)
    (t₀ : List (Int × RemoteFile)) :
    (((tableInsert localFd rf t₀).lookup localFd).map RemoteFile.fd
      = some rf.fd) ∧
    ∀ t, ReachWithoutClose localFd (tableInsert localFd rf t₀) t →
      ((t.lookup localFd).map RemoteFile.fd = some rf.fd) := by
  have hbase : (tableInsert localFd rf t₀).lookup localFd = some rf := by
    simp [tableInsert, List.lookup]
  refine ⟨by rw [hbase]; rfl, ?_⟩
  intro t hreach
  rw [reach_preserves_lookup localFd rf hreach hbase]
  rfl

/-- C3: whenever the virtualized open path (`open`, or the relative branch of
`openat`) returns a local handle, looking that handle up in `OPEN_FILES`
yields exactly the remote descriptor carried by the remote open response, and
it keeps doing so under every table evolution that does not close the
handle. -/
theorem open_table_binding (setup : Setup) (remoteFd : Nat) (lfd : Int)
    (fd : Int) (path : String) (oo : OpenOptionsInternal) (s : LayerState) :
    (∀ localFd s', openLogic setup (Except.ok remoteFd) lfd path oo s
        = (Detour.success localFd, s') →
      ((s'.openFiles.lookup localFd).map RemoteFile.fd = some remoteFd ∧
        ∀ t, ReachWithoutClose localFd s'.openFiles t →
          (t.lookup localFd).map RemoteFile.fd = some remoteFd)) ∧
    (∀ localFd s', (is_absolute path || fd == AT_FDCWD) = false →
      openat setup (Except.ok remoteFd) lfd fd path oo s
        = (Detour.success localFd, s') →
      ((s'.openFiles.lookup localFd).map RemoteFile.fd = some remoteFd ∧
        ∀ t, ReachWithoutClose localFd s'.openFiles t →
          (t.lookup localFd).map RemoteFile.fd = some remoteFd)) := by
  constructor
  · intro localFd s' heq
    by_cases hrel : is_relative path
    · simp [openLogic, hrel] at heq
    · have hrel' : is_relative path = false := by simpa using hrel
      by_cases hf : setup.fileFilterAllows (setup.changePath path) oo.isWrite
      · by_cases hl : lfd == -1
        · simp [openLogic, remote_open, create_local_fake_file, hrel', hf,
            hl] at heq
        · simp only [openLogic, remote_open, create_local_fake_file, hrel',
            hf, hl, Bool.not_true, Bool.false_eq_true, if_false, if_true,
            Bool.not_false, Bool.true_eq_false] at heq
          simp only [Prod.mk.injEq, Detour.success.injEq] at heq
          obtain ⟨h1, h2⟩ := heq
          subst h1
          subst h2
          exact inserted_binding_persists lfd
            ⟨remoteFd, setup.changePath path⟩ s.openFiles
      · simp [openLogic, hrel', hf] at heq
  · intro localFd s' habs heq
    match hfd : s.openFiles.lookup fd with
    | none =>
      simp [openat, habs, get_remote_fd, hfd] at heq
    | some rfBase =>
      by_cases hl : lfd == -1
      · simp [openat, habs, get_remote_fd, hfd, create_local_fake_file,
          hl] at heq
      · simp only [openat, habs, get_remote_fd, hfd, create_local_fake_file,
          hl, Bool.false_eq_true, if_false, if_true] at heq
        simp only [Prod.mk.injEq, Detour.success.injEq] at heq
        obtain ⟨h1, h2⟩ := heq
        subst h1
        subst h2
        exact inserted_binding_persists lfd ⟨remoteFd, path⟩ _

/-- Closed instances of `open_table_binding`: the binding made by a concrete
`open` is visible right away and after an unrelated close, and the binding
made by a concrete relative `openat` is visible right away. -/
theorem open_table_binding_witness :
    ((([(5, (⟨7, "/a"⟩ : RemoteFile))] :
        List (Int × RemoteFile)).lookup 5).map RemoteFile.fd = some 7) ∧
    (((tableErase 3 [(5, (⟨7, "/a"⟩ : RemoteFile))]).lookup 5).map
        RemoteFile.fd = some 7) ∧
    ((([(6, (⟨9, "b"⟩ : RemoteFile)), (3, ⟨4, "/d"⟩)] :
        List (Int × RemoteFile)).lookup 6).map RemoteFile.fd = some 9) := by
  have h1 := (open_table_binding ⟨fun p => p, fun _ _ => true⟩ 7 5 3 "/a"
      ⟨false⟩ ⟨[], [], 0, 0⟩).1 5
      ⟨[(5, ⟨7, "/a"⟩)], [FileRequest.openFile "/a" ⟨false⟩], 1, 1⟩
      (by decide)
  have h2 := (open_table_binding ⟨fun p => p, fun _ _ => true⟩ 9 6 3 "b"
      ⟨false⟩ ⟨[(3, ⟨4, "/d"⟩)], [], 0, 0⟩).2 6
      ⟨[(6, ⟨9, "b"⟩), (3, ⟨4, "/d"⟩)],
        [FileRequest.openRelativeFile 4 "b" ⟨false⟩], 0, 0⟩
      (by decide) (by decide)
  exact ⟨h1.1,
    h1.2 (tableErase 3 [(5, ⟨7, "/a"⟩)])
      (ReachWithoutClose.closeStep 3 (ReachWithoutClose.refl _) (by decide)),
    h2.1⟩

/-- The 1 MiB read ceiling (`MAX_READ_SIZE`, file/ops.rs:29). -/
def MAX_READ_SIZE : Nat := 1024 * 1024

/-- Read response (`mirrord_protocol::file::ReadFileResponse`, outside the
sources; abstracted to the bytes read). -/
structure ReadFileResponse where
  bytes : List Nat
deriving DecidableEq, Repr

/-- Embeds `RemoteFile::remote_read` (file/ops.rs:92): the requested amount is
clamped to `MAX_READ_SIZE` before the `ReadFileRequest` is sent; the correlated
reply is the oracle parameter `resp`. -/
def remote_read (remoteFd : Nat) (readAmount : Nat)
    (resp : Except ResponseError ReadFileResponse) (s : LayerState) :
    Detour ReadFileResponse × LayerState :=
  let readAmount := min readAmount MAX_READ_SIZE
  let s := { s with sentRequests :=
      s.sentRequests ++ [FileRequest.readFile remoteFd readAmount] }
  match resp with
  | Except.ok r => (Detour.success r, s)
  | Except.error e => (Detour.error (HookError.responseFailure e), s)

/-- Embeds `read` (file/ops.rs:272): translate the local descriptor through
`get_remote_fd` and chain into `remote_read`. -/
def read (localFd : Int) (readAmount : Nat)
    (resp : Except ResponseError ReadFileResponse) (s : LayerState) :
    Detour ReadFileResponse × LayerState :=
  match get_remote_fd localFd s with
  | Detour.success remoteFd => remote_read remoteFd readAmount resp s
  | Detour.bypass b => (Detour.bypass b, s)
  | Detour.error e => (Detour.error e, s)

/-- Embeds `pread` (file/ops.rs:286), the limited offset-read: the buffer size
goes into the `ReadLimitedFileRequest` unchanged. -/
def pread (localFd : Int) (bufferSize : Nat) (offset : Nat)
    (resp : Except ResponseError ReadFileResponse) (s : LayerState) :
    Detour ReadFileResponse × LayerState :=
  match get_remote_fd localFd s with
  | Detour.success remoteFd =>
    let s := { s with sentRequests := s.sentRequests ++
        [FileRequest.readLimitedFile remoteFd bufferSize offset] }
    (match resp with
     | Except.ok r => (Detour.success r, s)
     | Except.error e => (Detour.error (HookError.responseFailure e), s))
  | Detour.bypass b => (Detour.bypass b, s)
  | Detour.error e => (Detour.error e, s)

/-- C4 counterexample: a limited offset-read (`pread`) of 2,097,152 bytes sends
a remote request for 2,097,152 bytes, not for the 1,048,576-byte ceiling the
claim requires for every virtualized read. -/
theorem pread_no_clamp_counterexample :
    (pread 5 2097152 0 (Except.ok ⟨[]⟩)
        ⟨[(5, ⟨9, "/f"⟩)], [], 0, 0⟩).2.sentRequests =
      [FileRequest.readLimitedFile 9 2097152 0] ∧
    (2097152 : Nat) ≠ MAX_READ_SIZE := by
  refine ⟨?_, by decide⟩
  simp [pread, get_remote_fd, List.lookup]

/-- C4 as amended: the plain read path clamps — requesting more than
`MAX_READ_SIZE` bytes sends a remote read request for exactly `MAX_READ_SIZE`
bytes, and a request at or below the ceiling is sent unchanged — while the
limited offset-read (`pread`) sends the requested size unchanged. -/
theorem read_clamp (localFd : Int) (remoteFd : Nat) (amount : Nat)
    (offset : Nat) (resp : Except ResponseError ReadFileResponse)
    (s : LayerState)
    (hfd : get_remote_fd localFd s = Detour.success remoteFd) :
    (MAX_READ_SIZE < amount →
      (read localFd amount resp s).2.sentRequests =
        s.sentRequests ++ [FileRequest.readFile remoteFd MAX_READ_SIZE]) ∧
    (amount ≤ MAX_READ_SIZE →
      (read localFd amount resp s).2.sentRequests =
        s.sentRequests ++ [FileRequest.readFile remoteFd amount]) ∧
    ((pread localFd amount offset resp s).2.sentRequests =
      s.sentRequests ++
        [FileRequest.readLimitedFile remoteFd amount offset]) := by
  refine ⟨?_, ?_, ?_⟩
  · intro h
    have hmin : min amount MAX_READ_SIZE = MAX_READ_SIZE :=
      Nat.min_eq_right (Nat.le_of_lt h)
    cases resp <;> simp [read, remote_read, hfd, hmin]
  · intro h
    have hmin : min amount MAX_READ_SIZE = amount := Nat.min_eq_left h
    cases resp <;> simp [read, remote_read, hfd, hmin]
  · cases resp <;> simp [pread, hfd]

/-- Closed instances of `read_clamp`: an over-sized `read` is clamped to the
ceiling, a small `read` is sent unchanged, and an over-sized `pread` is sent
unchanged. -/
theorem read_clamp_witness :
    (read 5 2097152 (Except.ok ⟨[]⟩)
        ⟨[(5, ⟨9, "/f"⟩)], [], 0, 0⟩).2.sentRequests =
      [] ++ [FileRequest.readFile 9 MAX_READ_SIZE] ∧
    (read 5 100 (Except.ok ⟨[]⟩)
        ⟨[(5, ⟨9, "/f"⟩)], [], 0, 0⟩).2.sentRequests =
      [] ++ [FileRequest.readFile 9 100] ∧
    (pread 5 2097152 3 (Except.ok ⟨[]⟩)
        ⟨[(5, ⟨9, "/f"⟩)], [], 0, 0⟩).2.sentRequests =
      [] ++ [FileRequest.readLimitedFile 9 2097152 3] :=
  ⟨(read_clamp 5 9 2097152 3 (Except.ok ⟨[]⟩)
      ⟨[(5, ⟨9, "/f"⟩)], [], 0, 0⟩ (by decide)).1 (by decide),
   (read_clamp 5 9 100 3 (Except.ok ⟨[]⟩)
      ⟨[(5, ⟨9, "/f"⟩)], [], 0, 0⟩ (by decide)).2.1 (by decide),
   (read_clamp 5 9 2097152 3 (Except.ok ⟨[]⟩)
      ⟨[(5, ⟨9, "/f"⟩)], [], 0, 0⟩ (by decide)).2.2⟩

/-- Linux `STATX_TYPE` availability flag (`libc`). -/
def STATX_TYPE : Nat := 0x00000001

/-- Linux `STATX_MODE` availability flag (`libc`). -/
def STATX_MODE : Nat := 0x00000002

/-- Linux `STATX_NLINK` availability flag (`libc`). -/
def STATX_NLINK : Nat := 0x00000004

/-- Linux `STATX_UID` availability flag (`libc`). -/
def STATX_UID : Nat := 0x00000008

/-- Linux `STATX_GID` availability flag (`libc`). -/
def STATX_GID : Nat := 0x00000010

/-- Linux `STATX_ATIME` availability flag (`libc`). -/
def STATX_ATIME : Nat := 0x00000020

/-- Linux `STATX_MTIME` availability flag (`libc`). -/
def STATX_MTIME : Nat := 0x00000040

/-- Linux `STATX_CTIME` availability flag (`libc`). -/
def STATX_CTIME : Nat := 0x00000080

/-- Linux `STATX_INO` availability flag (`libc`). -/
def STATX_INO : Nat := 0x00000100

/-- Linux `STATX_SIZE` availability flag (`libc`). -/
def STATX_SIZE : Nat := 0x00000200

/-- Linux `STATX_BLOCKS` availability flag (`libc`). -/
def STATX_BLOCKS : Nat := 0x00000400

/-- The generic remote metadata record
(`mirrord_protocol::file::MetadataInternal`, outside the sources): the fields
read by `statx_logic`. Timestamps are signed nanosecond values. -/
structure MetadataInternal where
  device_id : Nat
  size : Nat
  user_id : Nat
  blocks : Nat
  mode : Nat
  hard_links : Nat
  inode : Nat
  group_id : Nat
  access_time : Int
  modification_time : Int
  creation_time : Int
  block_size : Nat
  rdevice_id : Nat
deriving DecidableEq, Repr

/-- A `statx_timestamp` value: seconds and subsecond nanoseconds. -/
structure StatxTimestamp where
  tv_sec : Int
  tv_nsec : Nat
deriving DecidableEq, Repr

/-- The fields of the native `statx` buffer written by `statx_logic`. -/
structure StatxBuf where
  stx_mask : Nat
  stx_attributes_mask : Nat
  stx_blksize : Nat
  stx_nlink : Nat
  stx_uid : Nat
  stx_gid : Nat
  stx_mode : Nat
  stx_ino : Nat
  stx_size : Nat
  stx_blocks : Nat
  stx_atime : StatxTimestamp
  stx_ctime : StatxTimestamp
  stx_mtime : StatxTimestamp
  stx_rdev_major : Nat
  stx_rdev_minor : Nat
  stx_dev_major : Nat
  stx_dev_minor : Nat
deriving DecidableEq, Repr

/-- Embeds the nested `nanos_to_statx` helper of `statx_logic`
(file/ops.rs:531): the u64 conversion of the signed nanosecond value turns
negatives into 0, and the seconds saturate at the i64 maximum instead of
wrapping. -/
def nanos_to_statx (nanos : Int) : StatxTimestamp :=
  let n : Nat := if nanos < 0 then 0 else nanos.toNat
  { tv_sec := if n / 1000000000 ≤ 2 ^ 63 - 1 then
      ((n / 1000000000 : Nat) : Int) else 2 ^ 63 - 1,
    tv_nsec := n % 1000000000 }

/-- Embeds `device_id_to_statx` (file/ops.rs:543): `libc::major` and
`libc::minor` on Linux (the gnu_dev bit layout). -/
def device_id_to_statx (id : Nat) : Nat × Nat :=
  (((id >>> 8) &&& 0xfff) ||| ((id >>> 32) &&& 0xfffff000),
   (id &&& 0xff) ||| ((id >>> 12) &&& 0xffffff00))

/-- Embeds the population of the caller's `statx` buffer by `statx_logic`
(file/ops.rs:549): the buffer is zeroed, `stx_mask` is assigned the bitwise
AND chain of the `STATX_*` flags exactly as written in the source
(`STATX_TYPE & STATX_MODE & ... & STATX_BLOCKS`), `stx_attributes_mask` is 0,
and the individual fields are filled from the remote metadata record with
saturating conversions. -/
def statx_fill (response : MetadataInternal) : StatxBuf :=
  { stx_mask := STATX_TYPE &&& STATX_MODE &&& STATX_NLINK &&& STATX_UID &&&
      STATX_GID &&& STATX_ATIME &&& STATX_MTIME &&& STATX_CTIME &&&
      STATX_INO &&& STATX_SIZE &&& STATX_BLOCKS,
    stx_attributes_mask := 0,
    stx_blksize := if response.block_size ≤ 0xffffffff then
      response.block_size else 0xffffffff,
    stx_nlink := if response.hard_links ≤ 0xffffffff then
      response.hard_links else 0xffffffff,
    stx_uid := response.user_id,
    stx_gid := response.group_id,
    stx_mode := response.mode % 2 ^ 16,
    stx_ino := response.inode,
    stx_size := response.size,
    stx_blocks := response.blocks,
    stx_atime := nanos_to_statx response.access_time,
    stx_ctime := nanos_to_statx response.creation_time,
    stx_mtime := nanos_to_statx response.modification_time,
    stx_rdev_major := (device_id_to_statx response.rdevice_id).1,
    stx_rdev_minor := (device_id_to_statx response.rdevice_id).2,
    stx_dev_major := (device_id_to_statx response.device_id).1,
    stx_dev_minor := (device_id_to_statx response.device_id).2 }

/-- C2 (code bug): the source combines the `STATX_*` availability flags with
bitwise AND, so for every successful statx call the availability mask written
to the caller's buffer is 0 — no availability bit is set, not even for the
obtainable fields — contrary to the claim (and to the function's own doc
comment, which says the mask informs the caller which fields were filled); the
mask is in particular not the OR of the supported flags. -/
theorem statx_mask_reports_no_fields (m : MetadataInternal) :
    (statx_fill m).stx_mask = 0 ∧
    (statx_fill m).stx_mask &&& STATX_TYPE = 0 ∧
    (statx_fill m).stx_mask &&& STATX_SIZE = 0 ∧
    (statx_fill m).stx_mask ≠
      (STATX_TYPE ||| STATX_MODE ||| STATX_NLINK ||| STATX_UID |||
       STATX_GID ||| STATX_ATIME ||| STATX_MTIME ||| STATX_CTIME |||
       STATX_INO ||| STATX_SIZE ||| STATX_BLOCKS) := by
  have h0 : (statx_fill m).stx_mask = 0 := rfl
  refine ⟨h0, ?_, ?_, ?_⟩ <;> rw [h0] <;> decide

/-- A C string as held by Rust's `CString`: bytes with no interior NUL; the
terminating NUL is appended by `as_bytes_with_nul`. -/
structure CHostname where
  bytes : List Nat
  no_nul : ∀ b ∈ bytes, b ≠ 0

/-- The Linux `EINVAL` errno value. -/
def EINVAL : Nat := 22

/-- Observable outcome of the `gethostname` hook: the bytes copied into the
caller's buffer, the errno set (if any), and the return value. -/
structure GethostnameResult where
  copied : List Nat
  errnoSet : Option Nat
  ret : Int
deriving DecidableEq, Repr

/-- Embeds `gethostname_detour` (socket/hooks.rs:89) in the case where the
remote hostname was obtained: `host_len` counts the terminating NUL,
`min(name_length, host_len)` bytes are copied into the caller's buffer, and an
over-long hostname sets EINVAL and returns -1, otherwise the hook returns
0. -/
def gethostname_detour (host : CHostname) (nameLength : Nat) :
    GethostnameResult :=
  let hostBytes := host.bytes ++ [0]
  let hostLen := hostBytes.length
  let copied := hostBytes.take (min nameLength hostLen)
  if hostLen > nameLength then
    { copied := copied, errnoSet := some EINVAL, ret := -1 }
  else
    { copied := copied, errnoSet := none, ret := 0 }

/-- C10: if the hostname with its NUL terminator exceeds the caller's buffer
length, the hook still copies the first buffer-length bytes (truncated, with
no NUL terminator among them), sets EINVAL and returns -1; otherwise it copies
the full hostname including the NUL terminator and returns 0 with errno
untouched. -/
theorem gethostname_contract (host : CHostname) (nameLength : Nat) :
    ((host.bytes ++ [0]).length > nameLength →
      (gethostname_detour host nameLength).copied
          = (host.bytes ++ [0]).take nameLength ∧
        (0 : Nat) ∉ (gethostname_detour host nameLength).copied ∧
        (gethostname_detour host nameLength).errnoSet = some EINVAL ∧
        (gethostname_detour host nameLength).ret = -1) ∧
    ((host.bytes ++ [0]).length ≤ nameLength →
      (gethostname_detour host nameLength).copied = host.bytes ++ [0] ∧
        (gethostname_detour host nameLength).errnoSet = none ∧
        (gethostname_detour host nameLength).ret = 0) := by
  constructor
  · intro h
    have h' : nameLength < host.bytes.length + 1 := by
      simpa using h
    have hle : nameLength ≤ host.bytes.length := by omega
    have hmin' : min nameLength (host.bytes.length + 1) = nameLength := by
      omega
    have hcop : (gethostname_detour host nameLength).copied
        = (host.bytes ++ [0]).take nameLength := by
      simp [gethostname_detour, h', hmin']
    refine ⟨hcop, ?_, by simp [gethostname_detour, h'],
      by simp [gethostname_detour, h']⟩
    rw [hcop, List.take_append_of_le_length hle]
    intro hmem
    exact host.no_nul 0 (List.take_subset _ _ hmem) rfl
  · intro h
    have h' : ¬ nameLength < host.bytes.length + 1 := by
      simp only [List.length_append, List.length_cons,
        List.length_nil] at h
      omega
    have hmin' : min nameLength (host.bytes.length + 1)
        = host.bytes.length + 1 := by omega
    refine ⟨?_, by simp [gethostname_detour, h'],
      by simp [gethostname_detour, h']⟩
    have hcop : (gethostname_detour host nameLength).copied
        = (host.bytes ++ [0]).take (host.bytes.length + 1) := by
      simp [gethostname_detour, h', hmin']
    rw [hcop, List.take_of_length_le (by simp)]

/-- A concrete two-byte hostname used to witness `gethostname_contract`. -/
def hostHi : CHostname := ⟨[104, 105], by decide⟩

/-- Closed instances of `gethostname_contract`: a 1-byte buffer gets a
truncated unterminated copy with EINVAL and -1; a 3-byte buffer gets the full
NUL-terminated hostname and 0. -/
theorem gethostname_contract_witness :
    (0 : Nat) ∉ (gethostname_detour hostHi 1).copied ∧
    (gethostname_detour hostHi 1).errnoSet = some EINVAL ∧
    (gethostname_detour hostHi 1).ret = -1 ∧
    (gethostname_detour hostHi 3).copied = hostHi.bytes ++ [0] ∧
    (gethostname_detour hostHi 3).ret = 0 :=
  ⟨((gethostname_contract hostHi 1).1 (by decide)).2.1,
   ((gethostname_contract hostHi 1).1 (by decide)).2.2.1,
   ((gethostname_contract hostHi 1).1 (by decide)).2.2.2,
   ((gethostname_contract hostHi 3).2 (by decide)).1,
   ((gethostname_contract hostHi 3).2 (by decide)).2.2⟩

/-- Log severity of a daemon log notification
(`mirrord_protocol::LogLevel`). -/
inductive LogLevel where
  | warn
  | error
deriving DecidableEq, Repr

/-- Payload of an inbound log notification
(`DaemonMessage::LogMessage`). -/
structure LogMessage where
  level : LogLevel
  message : String
deriving DecidableEq, Repr

/-- Inbound daemon message (`mirrord_protocol::DaemonMessage`, outside the
sources): the relay only distinguishes the log-notification variant from all
the others, so the other variants are abstracted into `other`. -/
inductive DaemonMessage where
  | logMessage (m : LogMessage)
  | other (payload : Nat)
deriving DecidableEq, Repr

/-- Decoding failure of an inbound frame. -/
inductive CodecError where
  | decodeFailure (code : Nat)
deriving DecidableEq, Repr

/-- Observable actions of one iteration of the relay loop on its inbound
side. -/
inductive RelayEffect where
  | logForwarded (m : LogMessage)
  | routedToCaller (m : DaemonMessage)
  | loopEnded
deriving DecidableEq, Repr

/-- Embeds the `codec.next()` arm of the relay loop in `wrap_raw_connection`
(kube/src/api.rs:47): a decoded log notification is forwarded to the logging
subsystem (`warn!`/`error!`) and nothing else happens; every other decoded
message is sent to the response channel `out_tx`; a decode error or end of
stream ends the loop. -/
def handle_daemon_message :
    Option (Except CodecError DaemonMessage) → List RelayEffect
  | some (Except.ok (DaemonMessage.logMessage m)) =>
    [RelayEffect.logForwarded m]
  | some (Except.ok msg) => [RelayEffect.routedToCaller msg]
  | some (Except.error _) => [RelayEffect.loopEnded]
  | none => [RelayEffect.loopEnded]

/-- C8: an inbound log notification is forwarded to the logging subsystem and
never routed to the caller's response channel, while every other successfully
decoded inbound message is routed to the response channel. -/
theorem relay_inbound_routing (msg : DaemonMessage) :
    (∀ lm, msg = DaemonMessage.logMessage lm →
      handle_daemon_message (some (Except.ok msg))
          = [RelayEffect.logForwarded lm] ∧
        ∀ m', RelayEffect.routedToCaller m'
          ∉ handle_daemon_message (some (Except.ok msg))) ∧
    ((∀ lm, msg ≠ DaemonMessage.logMessage lm) →
      handle_daemon_message (some (Except.ok msg))
        = [RelayEffect.routedToCaller msg]) := by
  cases msg with
  | logMessage m =>
    constructor
    · intro lm hlm
      injection hlm with h
      subst h
      refine ⟨rfl, ?_⟩
      intro m' hmem
      simp [handle_daemon_message] at hmem
    · intro hne
      exact absurd rfl (hne m)
  | other p =>
    constructor
    · intro lm hlm
      cases hlm
    · intro _
      rfl

/-- Closed instances of `relay_inbound_routing`: a warn-level log notification
is only forwarded to logging, and a non-log message is routed to the response
channel. -/
theorem relay_inbound_routing_witness :
    handle_daemon_message (some (Except.ok
        (DaemonMessage.logMessage ⟨LogLevel.warn, "w"⟩)))
      = [RelayEffect.logForwarded ⟨LogLevel.warn, "w"⟩] ∧
    handle_daemon_message (some (Except.ok (DaemonMessage.other 0)))
      = [RelayEffect.routedToCaller (DaemonMessage.other 0)] :=
  ⟨((relay_inbound_routing
      (DaemonMessage.logMessage ⟨LogLevel.warn, "w"⟩)).1
      ⟨LogLevel.warn, "w"⟩ rfl).1,
   (relay_inbound_routing (DaemonMessage.other 0)).2
      (by intro lm h; cases h)⟩

/-- A node of the `addrinfo` linked list built by `getaddrinfo_detour`: its
own heap address (the `Box::into_raw` result), the address of its embedded
`sockaddr` allocation (`ai_addr`), and the address of its canonical-name
C string (`ai_canonname`). The chain is represented extensionally: the list
holds the nodes in `ai_next` order, so a node's `ai_next` pointer is the
address of the next list element (0, i.e. null, after the last). -/
structure AddrInfoNode where
  selfAddr : Nat
  ai_addr : Nat
  ai_canonname : Nat
deriving DecidableEq, Repr

/-- The address an `ai_next` pointer into the given remaining chain holds:
the address of its first node, or 0 (null) at the end of the chain. -/
def aiNext : List AddrInfoNode → Nat
  | [] => 0
  | n :: _ => n.selfAddr

/-- Embeds the `MANAGED_ADDRINFO.insert` in the success arm of
`getaddrinfo_detour` (socket/hooks.rs:269): the head address of a freshly
built chain is registered in the self-owned registry. -/
def getaddrinfo_register (head : Nat) (reg : List Nat) : List Nat :=
  if head ∈ reg then reg else head :: reg

/-- Embeds the chain-walking loop of `freeaddrinfo_detour`
(socket/hooks.rs:300): each iteration releases the current node's embedded
address structure, its canonical-name string and the node box itself (in that
drop order), then removes the already-advanced `current` pointer — i.e. the
address of the NEXT node, or 0 at the end — from `MANAGED_ADDRINFO`. Returns
the released allocations in release order and the resulting registry. -/
def freeChainLoop : List AddrInfoNode → List Nat → List Nat × List Nat
  | [], reg => ([], reg)
  | n :: rest, reg =>
    let next := aiNext rest
    let res := freeChainLoop rest (reg.filter (fun a => !(a == next)))
    (n.ai_addr :: n.ai_canonname :: n.selfAddr :: res.1, res.2)

/-- Observable outcome of the `freeaddrinfo` hook: the heap allocations the
layer itself released (in order), the resulting `MANAGED_ADDRINFO` registry,
and whether the native `FN_FREEADDRINFO` was invoked. -/
structure FreeAddrInfoResult where
  freed : List Nat
  registry : List Nat
  nativeFreeCalled : Bool
deriving DecidableEq, Repr

/-- Embeds `freeaddrinfo_detour` (socket/hooks.rs:296): `DashSet::remove` on
the argument pointer decides ownership — if the pointer was registered it is
deregistered and the whole chain is walked and released by the layer itself,
otherwise the native `FN_FREEADDRINFO` is invoked and the layer releases
nothing. -/
def freeaddrinfo_detour (chain : List AddrInfoNode) (reg : List Nat) :
    FreeAddrInfoResult :=
  let head := aiNext chain
  if head ∈ reg then
    let res := freeChainLoop chain (reg.filter (fun a => !(a == head)))
    ⟨res.1, res.2, false⟩
  else
    ⟨[], reg, true⟩

/-- The loop releases all three allocations of every chain node, in chain
order, independently of the registry contents. -/
theorem freeChainLoop_freed :
    ∀ (chain : List AddrInfoNode) (reg : List Nat),
      (freeChainLoop chain reg).1 =
        chain.flatMap (fun n => [n.ai_addr, n.ai_canonname, n.selfAddr])
  | [], _ => rfl
  | n :: rest, reg => by
    simp [freeChainLoop, freeChainLoop_freed rest]

/-- The addresses the loop removes from the registry: the `ai_next` value at
each iteration. -/
def nextsRemoved : List AddrInfoNode → List Nat
  | [] => []
  | _ :: rest => aiNext rest :: nextsRemoved rest

/-- The registry after the loop: everything the loop's iterations removed is
filtered out. -/
theorem freeChainLoop_registry :
    ∀ (chain : List AddrInfoNode) (reg : List Nat),
      (freeChainLoop chain reg).2 =
        reg.filter (fun a => !((nextsRemoved chain).contains a))
  | [], reg => by simp [freeChainLoop, nextsRemoved]
  | n :: rest, reg => by
    have ih := freeChainLoop_registry rest
      (reg.filter (fun a => !(a == aiNext rest)))
    simp only [freeChainLoop, nextsRemoved, ih, List.filter_filter]
    congr 1
    funext a
    simp only [List.contains_cons, Bool.not_or]
    rw [Bool.and_comm]

/-- Unfolding equation for `aiNext` on a nonempty chain. -/
theorem aiNext_cons (n : AddrInfoNode) (rest : List AddrInfoNode) :
    aiNext (n :: rest) = n.selfAddr := rfl

/-- Unfolding equation for `nextsRemoved` on a nonempty chain. -/
theorem nextsRemoved_cons (n : AddrInfoNode) (rest : List AddrInfoNode) :
    nextsRemoved (n :: rest) = aiNext rest :: nextsRemoved rest := rfl

/-- For a nonzero address, being the chain head or one of the loop-removed
addresses is the same as being some chain node's own address. -/
theorem head_or_nextsRemoved (a : Nat) (ha : a ≠ 0) :
    ∀ chain : List AddrInfoNode,
      ((a == aiNext chain) || (nextsRemoved chain).contains a) =
        (chain.map AddrInfoNode.selfAddr).contains a
  | [] => by simp [aiNext, nextsRemoved, ha]
  | n :: rest => by
    rw [aiNext_cons, nextsRemoved_cons, List.map_cons, List.contains_cons,
      List.contains_cons, head_or_nextsRemoved a ha rest]

/-- C6: the release-strategy dichotomy of `freeaddrinfo_detour`. If the
argument pointer (the chain head) is registered in `MANAGED_ADDRINFO`, the
layer itself releases every node's three allocations, removes all the chain's
node addresses from the registry, and never invokes the native release; if it
is not registered, the native release is invoked and the layer neither
releases anything nor changes the registry. The hypothesis that 0 is not
registered holds for the real registry, which only ever receives
`Box::into_raw` results (never null). -/
theorem freeaddrinfo_ownership (chain : List AddrInfoNode) (reg : List Nat)
    (h0 : (0 : Nat) ∉ reg) :
    (aiNext chain ∈ reg →
      (freeaddrinfo_detour chain reg).nativeFreeCalled = false ∧
      (freeaddrinfo_detour chain reg).freed =
        chain.flatMap (fun n => [n.ai_addr, n.ai_canonname, n.selfAddr]) ∧
      (freeaddrinfo_detour chain reg).registry =
        reg.filter
          (fun a => !((chain.map AddrInfoNode.selfAddr).contains a))) ∧
    (aiNext chain ∉ reg →
      (freeaddrinfo_detour chain reg).nativeFreeCalled = true ∧
      (freeaddrinfo_detour chain reg).freed = [] ∧
      (freeaddrinfo_detour chain reg).registry = reg) := by
  constructor
  · intro hmem
    refine ⟨by simp [freeaddrinfo_detour, hmem], ?_, ?_⟩
    · simp [freeaddrinfo_detour, hmem, freeChainLoop_freed]
    · have hre : (freeaddrinfo_detour chain reg).registry =
          (reg.filter (fun a => !(a == aiNext chain))).filter
            (fun a => !((nextsRemoved chain).contains a)) := by
        simp [freeaddrinfo_detour, hmem, freeChainLoop_registry]
      rw [hre, List.filter_filter]
      apply List.filter_congr
      intro a hamem
      have ha : a ≠ 0 := fun he => h0 (he ▸ hamem)
      rw [← head_or_nextsRemoved a ha chain]
      simp [Bool.not_or, Bool.and_comm]
  · intro hmem
    simp [freeaddrinfo_detour, hmem]

/-- Closed instances of `freeaddrinfo_ownership`: a registered two-node chain
is fully self-released with the registry cleaned and no native call, and an
unregistered head is delegated to the native release untouched. -/
theorem freeaddrinfo_ownership_witness :
    ((freeaddrinfo_detour [⟨4, 5, 6⟩, ⟨7, 8, 9⟩]
        [4, 7, 99]).nativeFreeCalled = false ∧
      (freeaddrinfo_detour [⟨4, 5, 6⟩, ⟨7, 8, 9⟩] [4, 7, 99]).freed =
        ([⟨4, 5, 6⟩, ⟨7, 8, 9⟩] : List AddrInfoNode).flatMap
          (fun n => [n.ai_addr, n.ai_canonname, n.selfAddr]) ∧
      (freeaddrinfo_detour [⟨4, 5, 6⟩, ⟨7, 8, 9⟩] [4, 7, 99]).registry =
        [4, 7, 99].filter
          (fun a =>
            !((([⟨4, 5, 6⟩, ⟨7, 8, 9⟩] : List AddrInfoNode).map
              AddrInfoNode.selfAddr).contains a))) ∧
    ((freeaddrinfo_detour [⟨4, 5, 6⟩] [99]).nativeFreeCalled = true ∧
      (freeaddrinfo_detour [⟨4, 5, 6⟩] [99]).freed = [] ∧
      (freeaddrinfo_detour [⟨4, 5, 6⟩] [99]).registry = [99]) :=
  ⟨(freeaddrinfo_ownership [⟨4, 5, 6⟩, ⟨7, 8, 9⟩] [4, 7, 99]
      (by decide)).1 (by decide),
   (freeaddrinfo_ownership [⟨4, 5, 6⟩] [99] (by decide)).2 (by decide)⟩

/-- A `std::path::Component` of a Unix path. -/
inductive Component where
  | rootDir
  | curDir
  | parentDir
  | normal (seg : String)
deriving DecidableEq, Repr

/-- Splits a character list at every '/' separator, keeping empty segments:
the backbone of the `Path::components` embedding. (`splitSlash` never returns
the empty list, so prepending to its head is total.) -/
def splitSlash : List Char → List (List Char)
  | [] => [[]]
  | c :: cs =>
    if c = '/' then [] :: splitSlash cs
    else (c :: (splitSlash cs).headD []) :: (splitSlash cs).tail

/-- Maps one slash-separated segment to its `Path::components` element: empty
segments and "." are normalized away, ".." is the parent-directory component,
everything else is a normal component. -/
def segToComponent (seg : List Char) : Option Component :=
  if seg = [] then none
  else if seg = ['.'] then none
  else if seg = ['.', '.'] then some Component.parentDir
  else some (Component.normal (String.mk seg))

/-- Embeds `Path::components` for Unix paths, on the path's characters: a path
with a root contributes a leading root component; a relative path starting
with "." keeps that leading current-directory component; every segment is
normalized through `segToComponent`. -/
def pathComponentsChars (l : List Char) : List Component :=
  if l.head? = some '/' then
    Component.rootDir :: (splitSlash l).filterMap segToComponent
  else if (splitSlash l).headD [] = ['.'] then
    Component.curDir :: (splitSlash l).tail.filterMap segToComponent
  else
    (splitSlash l).filterMap segToComponent

/-- `Path::components` of a Unix path. -/
def pathComponents (s : String) : List Component :=
  pathComponentsChars s.data

/-- One step of the component loop of `absolute_path` (file/ops.rs:616): root
and current-directory components are skipped, a normal component is pushed
(`PathBuf::push`), and a parent-directory component pops the last pushed
segment (`PathBuf::pop`, which never removes the leading root). -/
def processComponent (acc : List String) : Component → List String
  | Component.rootDir => acc
  | Component.curDir => acc
  | Component.normal seg => acc ++ [seg]
  | Component.parentDir => acc.dropLast

/-- Renders the accumulated segments back into the path's characters: the
`PathBuf` starts at "/" and each pushed segment is separated by '/'. -/
def joinSegs : List String → List Char
  | [] => []
  | [seg] => seg.data
  | seg :: rest => seg.data ++ '/' :: joinSegs rest

/-- Embeds `absolute_path` (file/ops.rs:612): processes the path's components
in order over an accumulator starting at "/", with no filesystem access, and
renders the result. -/
def absolute_path (s : String) : String :=
  String.mk ('/' :: joinSegs ((pathComponents s).foldl processComponent []))

example : absolute_path "/a/b/../c" = "/a/c" := by decide
example : absolute_path "/a/b/./c" = "/a/b/c" := by decide
example : absolute_path "/a/b/c" = "/a/b/c" := by decide
example : absolute_path "/" = "/" := by decide
example : absolute_path "/.." = "/" := by decide
example : absolute_path "a/b" = "/a/b" := by decide

/-- A segment a normal component can carry: nonempty, not ".", not "..", and
slash-free. -/
def validSeg (seg : String) : Prop :=
  seg.data ≠ [] ∧ seg.data ≠ ['.'] ∧ seg.data ≠ ['.', '.'] ∧ '/' ∉ seg.data

/-- `splitSlash` never returns the empty list. -/
theorem splitSlash_ne_nil : ∀ l : List Char, splitSlash l ≠ []
  | [] => by simp [splitSlash]
  | c :: cs => by
    simp only [splitSlash]
    split <;> simp

/-- Segments produced by `splitSlash` contain no slash. -/
theorem splitSlash_no_slash : ∀ l : List Char, ∀ seg ∈ splitSlash l, '/' ∉ seg
  | [] => by simp [splitSlash]
  | c :: cs => by
    intro seg hseg
    simp only [splitSlash] at hseg
    by_cases hc : c = '/'
    · rw [if_pos hc] at hseg
      rcases List.mem_cons.mp hseg with rfl | hmem
      · simp
      · exact splitSlash_no_slash cs seg hmem
    · rw [if_neg hc] at hseg
      rcases List.mem_cons.mp hseg with rfl | hmem
      · intro hmem2
        rcases List.mem_cons.mp hmem2 with heq | hmem3
        · exact hc heq.symm
        · cases h : splitSlash cs with
          | nil => exact absurd h (splitSlash_ne_nil cs)
          | cons s ss =>
            rw [h, List.headD_cons] at hmem3
            refine splitSlash_no_slash cs s ?_ hmem3
            rw [h]
            exact List.mem_cons_self s ss
      · exact splitSlash_no_slash cs seg ((List.tail_sublist _).subset hmem)

/-- A slash-free character list is a single `splitSlash` segment. -/
theorem splitSlash_single : ∀ seg : List Char, '/' ∉ seg →
    splitSlash seg = [seg]
  | [], _ => rfl
  | c :: cs, h => by
    have hc : ¬ c = '/' := by
      intro he
      exact h (by rw [he]; exact List.mem_cons_self _ _)
    have ih : splitSlash cs = [cs] :=
      splitSlash_single cs (fun hm => h (List.mem_cons_of_mem c hm))
    simp [splitSlash, hc, ih]

/-- `splitSlash` splits at an explicit separator after a slash-free
fragment. -/
theorem splitSlash_append : ∀ (a l : List Char), '/' ∉ a →
    splitSlash (a ++ '/' :: l) = a :: splitSlash l
  | [], l, _ => by simp [splitSlash]
  | c :: a, l, h => by
    have hc : ¬ c = '/' := by
      intro he
      exact h (by rw [he]; exact List.mem_cons_self _ _)
    have ih := splitSlash_append a l (fun hm => h (List.mem_cons_of_mem c hm))
    simp [splitSlash, hc, ih]

/-- `splitSlash` undoes `joinSegs` on a nonempty stack of slash-free
segments. -/
theorem splitSlash_joinSegs : ∀ stack : List String, stack ≠ [] →
    (∀ p ∈ stack, '/' ∉ p.data) →
    splitSlash (joinSegs stack) = stack.map String.data
  | [], h, _ => absurd rfl h
  | [p], _, hv => by
    simp only [joinSegs, List.map]
    exact splitSlash_single p.data (hv p (List.mem_singleton_self p))
  | p :: q :: rest, _, hv => by
    have h1 : '/' ∉ p.data := hv p (List.mem_cons_self _ _)
    have ih := splitSlash_joinSegs (q :: rest) (by simp)
      (fun r hr => hv r (List.mem_cons_of_mem _ hr))
    simp only [joinSegs]
    rw [splitSlash_append p.data _ h1, ih]
    rfl

/-- A normal component produced by `segToComponent` from a slash-free segment
carries a valid segment. -/
theorem segToComponent_valid (seg : List Char) (hs : '/' ∉ seg) (p : String)
    (h : segToComponent seg = some (Component.normal p)) : validSeg p := by
  by_cases h1 : seg = []
  · simp [segToComponent, h1] at h
  · by_cases h2 : seg = ['.']
    · simp [segToComponent, h1, h2] at h
    · by_cases h3 : seg = ['.', '.']
      · simp [segToComponent, h1, h2, h3] at h
      · simp only [segToComponent] at h
        rw [if_neg h1, if_neg h2, if_neg h3] at h
        injection h with h
        injection h with h
        rw [← h]
        exact ⟨h1, h2, h3, hs⟩

/-- `segToComponent` maps a valid segment's characters back to its normal
component. -/
theorem segToComponent_of_valid (p : String) (h : validSeg p) :
    segToComponent p.data = some (Component.normal p) := by
  obtain ⟨h1, h2, h3, _⟩ := h
  simp only [segToComponent]
  rw [if_neg h1, if_neg h2, if_neg h3]

/-- Every normal component of a parsed path carries a valid segment. -/
theorem pathComponents_valid (s : String) :
    ∀ p, Component.normal p ∈ pathComponents s → validSeg p := by
  intro p hp
  have hex : ∃ seg ∈ splitSlash s.data,
      segToComponent seg = some (Component.normal p) := by
    unfold pathComponents pathComponentsChars at hp
    by_cases habs : s.data.head? = some '/'
    · rw [if_pos habs] at hp
      rcases List.mem_cons.mp hp with heq | hmem
      · cases heq
      · obtain ⟨a, ha, hfa⟩ := List.mem_filterMap.mp hmem
        exact ⟨a, ha, hfa⟩
    · rw [if_neg habs] at hp
      by_cases hdot : (splitSlash s.data).headD [] = ['.']
      · rw [if_pos hdot] at hp
        rcases List.mem_cons.mp hp with heq | hmem
        · cases heq
        · obtain ⟨a, ha, hfa⟩ := List.mem_filterMap.mp hmem
          exact ⟨a, (List.tail_sublist _).subset ha, hfa⟩
      · rw [if_neg hdot] at hp
        obtain ⟨a, ha, hfa⟩ := List.mem_filterMap.mp hp
        exact ⟨a, ha, hfa⟩
  obtain ⟨seg, hseg, hmap⟩ := hex
  exact segToComponent_valid seg (splitSlash_no_slash s.data seg hseg) p hmap

/-- Validity of the accumulated segments is preserved by the component
loop. -/
theorem foldl_processComponent_valid :
    ∀ (comps : List Component) (acc : List String),
      (∀ p ∈ acc, validSeg p) →
      (∀ p, Component.normal p ∈ comps → validSeg p) →
      ∀ p ∈ comps.foldl processComponent acc, validSeg p
  | [], acc, hacc, _ => by simpa using hacc
  | c :: comps, acc, hacc, hcomps => by
    have hacc' : ∀ p ∈ processComponent acc c, validSeg p := by
      cases c with
      | rootDir => exact hacc
      | curDir => exact hacc
      | normal seg =>
        intro p hp
        rcases List.mem_append.mp hp with hp | hp
        · exact hacc p hp
        · have heq := List.mem_singleton.mp hp
          rw [heq]
          exact hcomps seg (List.mem_cons_self _ _)
      | parentDir =>
        intro p hp
        exact hacc p ((List.dropLast_sublist acc).subset hp)
    exact foldl_processComponent_valid comps (processComponent acc c) hacc'
      (fun p hp => hcomps p (List.mem_cons_of_mem _ hp))

/-- `segToComponent` over the characters of a stack of valid segments yields
the stack's normal components. -/
theorem filterMap_segs : ∀ stack : List String,
    (∀ p ∈ stack, validSeg p) →
    (stack.map String.data).filterMap segToComponent =
      stack.map Component.normal
  | [], _ => rfl
  | p :: rest, hvalid => by
    simp only [List.map_cons, List.filterMap_cons,
      segToComponent_of_valid p (hvalid p (List.mem_cons_self _ _))]
    rw [filterMap_segs rest (fun q hq => hvalid q (List.mem_cons_of_mem _ hq))]

/-- Parsing the rendered output of the component loop yields exactly a root
followed by the stack's normal components. -/
theorem pathComponents_render (stack : List String)
    (hvalid : ∀ p ∈ stack, validSeg p) :
    pathComponents (String.mk ('/' :: joinSegs stack)) =
      Component.rootDir :: stack.map Component.normal := by
  cases stack with
  | nil => rfl
  | cons p rest =>
    have hsplit := splitSlash_joinSegs (p :: rest) (by simp)
      (fun q hq => (hvalid q hq).2.2.2)
    have hs : splitSlash ('/' :: joinSegs (p :: rest))
        = [] :: (p :: rest).map String.data := by
      have h := splitSlash_append [] (joinSegs (p :: rest)) (by simp)
      rw [List.nil_append] at h
      rw [h, hsplit]
    have hcond : ('/' :: joinSegs (p :: rest)).head? = some '/' := rfl
    have hnil : segToComponent ([] : List Char) = none := rfl
    show pathComponentsChars ('/' :: joinSegs (p :: rest)) = _
    unfold pathComponentsChars
    rw [if_pos hcond, hs, List.filterMap_cons_none hnil,
      filterMap_segs (p :: rest) hvalid]

/-- The component loop over a root followed by normal components appends the
carried segments. -/
theorem foldl_normals : ∀ (stack acc : List String),
    (stack.map Component.normal).foldl processComponent acc = acc ++ stack
  | [], acc => by simp
  | p :: rest, acc => by
    simp only [List.map_cons, List.foldl_cons, processComponent]
    rw [foldl_normals rest (acc ++ [p])]
    simp

/-- Normalization is idempotent. -/
theorem absolute_path_idem (s : String) :
    absolute_path (absolute_path s) = absolute_path s := by
  have hvalid : ∀ p ∈ (pathComponents s).foldl processComponent [],
      validSeg p :=
    foldl_processComponent_valid (pathComponents s) [] (by simp)
      (fun p hp => pathComponents_valid s p hp)
  have h2 : pathComponents (absolute_path s)
      = Component.rootDir ::
        ((pathComponents s).foldl processComponent []).map Component.normal :=
    pathComponents_render _ hvalid
  show String.mk
      ('/' :: joinSegs ((pathComponents (absolute_path s)).foldl
        processComponent [])) = absolute_path s
  rw [h2, List.foldl_cons]
  show String.mk ('/' :: joinSegs
      ((((pathComponents s).foldl processComponent []).map
        Component.normal).foldl processComponent [])) = absolute_path s
  rw [foldl_normals, List.nil_append]
  rfl

/-- C5: the embedded `absolute_path` maps the three listed inputs to the
listed outputs; its component loop skips root and current-directory
components, appends normal components and pops the last pushed segment on a
parent-directory component; and it is idempotent on every path. (The
embedding is a pure function: no filesystem access occurs.) -/
theorem absolute_path_spec :
    absolute_path "/a/b/../c" = "/a/c" ∧
    absolute_path "/a/b/./c" = "/a/b/c" ∧
    absolute_path "/a/b/c" = "/a/b/c" ∧
    (∀ acc : List String,
      processComponent acc Component.rootDir = acc ∧
      processComponent acc Component.curDir = acc ∧
      (∀ seg, processComponent acc (Component.normal seg) = acc ++ [seg]) ∧
      processComponent acc Component.parentDir = acc.dropLast) ∧
    (∀ s : String, absolute_path (absolute_path s) = absolute_path s) :=
  ⟨by decide, by decide, by decide,
   fun acc => ⟨rfl, rfl, fun seg => rfl, rfl⟩,
   fun s => absolute_path_idem s⟩

end Mirrord
